import Mathlib

/-!
Shallow embedding of `PVGeo/filters_general/voxelize.py` (class `VoxelizePoints`).

Coordinates are modelled by `ℚ`; NumPy arrays by `List ℚ` (or lists of triples
for the `(N, 3)` arrays built with `np.stack(..., axis=1)`).  Fallible steps of
the Python code (the NumPy version check, the length `assert`, the tuple-unpack
at the `EstimateUniformSpacing` call site, arithmetic on `None` deltas, and the
shape check performed by `np.stack`) are modelled with `Except`.

The rotation/spacing estimator (`RotationTool` from `..xyz`) is not part of the
sources; it enters `PointsToGrid` only as an abstract parameter, following the
collaborator contract the spec gives for it.
-/

namespace PVGeo

/-- A row of an `(N, 3)` NumPy array: one 3-D coordinate. -/
abbrev R3 := ℚ × ℚ × ℚ

/-- `np.around` on one value: round to the nearest integer, ties to even
(banker's rounding, NumPy's documented behaviour). -/
def around (q : ℚ) : ℤ :=
  if q - ⌊q⌋ < 1/2 then ⌊q⌋
  else if 1/2 < q - ⌊q⌋ then ⌊q⌋ + 1
  else if ⌊q⌋ % 2 = 0 then ⌊q⌋ else ⌊q⌋ + 1

/-- The mutable configuration state of a `VoxelizePoints` instance.
`dx`, `dy`, `dz` start as Python `None`, hence `Option ℚ`. -/
structure VoxelizePoints where
  dx : Option ℚ
  dy : Option ℚ
  dz : Option ℚ
  estimateGrid : Bool
  safe : ℚ
  angle : ℚ
  deriving DecidableEq, Repr

/-- `__init__`: deltas `None`, `estimateGrid = True`, `safe = 10.0`, `angle = 0.0`. -/
def initVoxelizePoints : VoxelizePoints :=
  { dx := none, dy := none, dz := none, estimateGrid := true, safe := 10, angle := 0 }

/-- `SetSafeSize`: writes the safe size only when it changes (the `Modified()`
pipeline notification is not modelled). -/
def SetSafeSize (s : VoxelizePoints) (safe : ℚ) : VoxelizePoints :=
  if s.safe ≠ safe then { s with safe := safe } else s

/-- `SetDeltaX`. -/
def SetDeltaX (s : VoxelizePoints) (dx : ℚ) : VoxelizePoints :=
  { s with dx := some dx }

/-- `SetDeltaY`. -/
def SetDeltaY (s : VoxelizePoints) (dy : ℚ) : VoxelizePoints :=
  { s with dy := some dy }

/-- `SetDeltaZ`: sets the delta-z field and then calls `SetSafeSize(dz)`. -/
def SetDeltaZ (s : VoxelizePoints) (dz : ℚ) : VoxelizePoints :=
  SetSafeSize { s with dz := some dz } dz

/-- `SetDeltas`: x, then y, then z. -/
def SetDeltas (s : VoxelizePoints) (dx dy dz : ℚ) : VoxelizePoints :=
  SetDeltaZ (SetDeltaY (SetDeltaX s dx) dy) dz

/-- `SetEstimateGrid`. -/
def SetEstimateGrid (s : VoxelizePoints) (flag : Bool) : VoxelizePoints :=
  if s.estimateGrid ≠ flag then { s with estimateGrid := flag } else s

/-- The ways a `PointsToGrid` invocation can fail.
* `unsupportedEnvironment` — the `RuntimeError` raised when `checkNumpy()` is false;
* `invalidInput` — the `assert(len(x) == len(y) == len(z))` in `EstimateUniformSpacing`;
* `unpackError` — `x,y,z = self.EstimateUniformSpacing(...)` receiving the
  7-tuple the `num == 1` branch returns;
* `typeErrorNone` — arithmetic such as `x - dx/2` with a delta still `None`;
* `shapeError` — `np.stack` rejecting coordinate arrays of unequal length. -/
inductive VoxError where
  | unsupportedEnvironment
  | invalidInput
  | unpackError
  | typeErrorNone
  | shapeError
  deriving DecidableEq, Repr

/-- Result record of `RotationTool().EstimateAndRotate(x, y, z)`. -/
structure EstOut where
  xr : List ℚ
  yr : List ℚ
  zr : List ℚ
  dx : ℚ
  dy : ℚ
  angle : ℚ

/-- Modelled from the spec: the external collaborator contract of
`RotationTool.EstimateAndRotate` (its source, `..xyz`, is not in the sources):
given equal-length coordinate sequences it returns rotated coordinates,
estimated spacings `dx`, `dy`, and the angle used.  `PointsToGrid` is
parametric in it. -/
abbrev Estimator := List ℚ → List ℚ → List ℚ → EstOut

/-- Modelled from the spec: the external collaborator contract of the static
`RotationTool.Rotate(points2D, angle)` (source not available): rotates 2-D
points by `angle` about the origin.  `PointsToGrid` is parametric in it. -/
abbrev Rotator := List (ℚ × ℚ) → ℚ → List (ℚ × ℚ)

/-- What `EstimateUniformSpacing` returns: the `num == 1` branch returns a
7-tuple, every other successful path a 3-tuple. -/
inductive EstRet where
  | tuple7 : List ℚ → List ℚ → List ℚ → ℚ → ℚ → ℚ → ℚ → EstRet
  | tuple3 : List ℚ → List ℚ → List ℚ → EstRet

/-- `np.unique` on a 1-D array: sorted distinct values. -/
def npUnique1 (z : List ℚ) : List ℚ :=
  z.dedup.insertionSort (· ≤ ·)

/-- `np.diff`: consecutive differences `l[i+1] - l[i]`. -/
def npDiff (l : List ℚ) : List ℚ :=
  l.zipWith (fun a b => b - a) l.tail

/-- `np.average`: arithmetic mean. -/
def npAverage (l : List ℚ) : ℚ :=
  l.sum / l.length

/-- `EstimateUniformSpacing(self, x, y, z)`.  The `assert` on equal lengths
fails as `invalidInput`; one point returns the 7-tuple
`(x, y, z, safe, safe, safe, 0.0)` without touching the instance state;
otherwise the estimator runs, `angle`/`dx`/`dy` are stored, and `dz` is the
average of `np.diff(np.unique(z))` with the safe size as fallback. -/
def EstimateUniformSpacing (est : Estimator) (s : VoxelizePoints)
    (x y z : List ℚ) : Except VoxError (EstRet × VoxelizePoints) :=
  if x.length = y.length ∧ y.length = z.length then
    if x.length = 1 then
      .ok (.tuple7 x y z s.safe s.safe s.safe 0, s)
    else
      let e := est x y z
      let uz := npDiff (npUnique1 z)
      let dz := if 0 < uz.length then npAverage uz else s.safe
      .ok (.tuple3 e.xr e.yr e.zr,
        { s with angle := e.angle, dx := some e.dx, dy := some e.dy, dz := some dz })
  else .error .invalidInput

/-- `np.stack((a, b, c), axis=1)` for three equal-length 1-D arrays: the list
of rows.  (The shape check `np.stack` performs is done by the caller before
this is used.) -/
def stack3 (x y z : List ℚ) : List R3 :=
  x.zip (y.zip z)

/-- Lines 106-125: the eight corner blocks `c_n1 … c_n8`, concatenated in
source order — bottom face `(-,-,-), (+,-,-), (-,+,-), (+,+,-)`, then the top
face with `+dz/2`.  Corner-major, point-minor. -/
def cornerNodes (x y z : List ℚ) (dx dy dz : ℚ) : List R3 :=
  let xm := x.map (· - dx/2)
  let xp := x.map (· + dx/2)
  let ym := y.map (· - dy/2)
  let yp := y.map (· + dy/2)
  let zm := z.map (· - dz/2)
  let zp := z.map (· + dz/2)
  stack3 xm ym zm ++ stack3 xp ym zm ++ stack3 xm yp zm ++ stack3 xp yp zm ++
  stack3 xm ym zp ++ stack3 xp ym zp ++ stack3 xm yp zp ++ stack3 xp yp zp

/-- Lines 130-131: `np.around` the X and Y columns divided by the tolerance;
the Z column is written back untouched. -/
def quantRow (t : ℚ) (p : R3) : R3 :=
  ((around (p.1 / t) : ℚ), (around (p.2.1 / t) : ℚ), p.2.2)

/-- Line 133: `unique_nodes[:,0:2] *= TOLERANCE`. -/
def rescaleRow (t : ℚ) (p : R3) : R3 :=
  (p.1 * t, p.2.1 * t, p.2.2)

/-- Lexicographic row order, the order `np.unique(..., axis=0)` sorts rows by. -/
def rowLe (p q : R3) : Prop :=
  p.1 < q.1 ∨ (p.1 = q.1 ∧ (p.2.1 < q.2.1 ∨ (p.2.1 = q.2.1 ∧ p.2.2 ≤ q.2.2)))

instance : DecidableRel rowLe := fun p q => by
  unfold rowLe; infer_instance

/-- Position of the first occurrence of a row in a list (0 past the end). -/
def idxOfRow : List R3 → R3 → ℕ
  | [], _ => 0
  | r :: rs, a => if a = r then 0 else idxOfRow rs a + 1

/-- `np.unique(rows, return_inverse=True, axis=0)`: the lexicographically
sorted list of distinct rows, and for each input row the index of its
representative in that list. -/
def npUniqueRows (rows : List R3) : List R3 × List ℕ :=
  let u := rows.dedup.insertionSort rowLe
  (u, rows.map (fun r => idxOfRow u r))

/-- The output `vtkUnstructuredGrid`, as far as `PointsToGrid` populates it:
inserted points, voxel cells (eight point ids each), and the two field-data
arrays `AddFieldData` attaches when the grid was estimated (the angle is kept
in radians here; the source converts it to degrees for display). -/
structure Grid where
  points : List R3
  cells : List (List ℕ)
  fieldAngle : Option ℚ
  fieldCellSizes : Option (ℚ × ℚ × ℚ)
  deriving DecidableEq, Repr

/-- Rotation of the node pool's XY columns, `unique_nodes[:,0:2] =
RotationTool.Rotate(unique_nodes[:,0:2], -angle)`, with the rotator abstract. -/
def applyRot (rot : Rotator) (nodes : List R3) (ang : ℚ) : List R3 :=
  let xy := rot (nodes.map (fun p => (p.1, p.2.1))) ang
  (xy.zip nodes).map (fun p => (p.1.1, p.1.2, p.2.2.2))

/-- `PointsToGrid(self, xo, yo, zo, dx, dy, dz, grid=None)`.
`numpyOK` models `checkNumpy()`.  Mirrors the source line by line:
the NumPy check; optionally `EstimateUniformSpacing` (whose `num == 1`
branch makes the 3-name unpack at line 96 fail); line 100 re-reading the
instance deltas (discarding the `dx, dy, dz` arguments); corner generation;
tolerance `min(dx, dy)/2`; XY quantisation; `np.unique` with inverse indices;
rescaling; rotation plus field data when estimating; and one voxel per input
point whose id `j` is `ind_nodes[j*numCells + i]`. -/
def PointsToGrid (est : Estimator) (rot : Rotator) (numpyOK : Bool)
    (s : VoxelizePoints) (xo yo zo : List ℚ) (dxArg dyArg dzArg : ℚ) :
    Except VoxError (Grid × VoxelizePoints) :=
  if numpyOK then
    let step : Except VoxError (List ℚ × List ℚ × List ℚ × VoxelizePoints) :=
      if s.estimateGrid then
        match EstimateUniformSpacing est s xo yo zo with
        | .error e => .error e
        | .ok (.tuple7 _ _ _ _ _ _ _, _) => .error .unpackError
        | .ok (.tuple3 x y z, s1) => .ok (x, y, z, s1)
      else .ok (xo, yo, zo, s)
    match step with
    | .error e => .error e
    | .ok (x, y, z, s1) =>
      match s1.dx, s1.dy, s1.dz with
      | some dx, some dy, some dz =>
        if x.length = y.length ∧ y.length = z.length then
          let numCells := x.length
          let all_nodes := cornerNodes x y z dx dy dz
          let tolerance := min dx dy / 2
          let qnodes := all_nodes.map (quantRow tolerance)
          let uniq := npUniqueRows qnodes
          let scaled := uniq.1.map (rescaleRow tolerance)
          let pts := if s.estimateGrid then applyRot rot scaled (-s1.angle) else scaled
          let meta : Option ℚ × Option (ℚ × ℚ × ℚ) :=
            if s.estimateGrid then (some s1.angle, some (dx, dy, dz)) else (none, none)
          let cells := (List.range numCells).map (fun i =>
            (List.range 8).map (fun j => uniq.2.getD (j * numCells + i) 0))
          .ok ({ points := pts, cells := cells,
                 fieldAngle := meta.1, fieldCellSizes := meta.2 }, s1)
        else .error .shapeError
      | _, _, _ => .error .typeErrorNone
  else .error .unsupportedEnvironment

/-- A concrete estimator used only to instantiate closed statements on the
non-estimating path, where the estimator is never consulted. -/
def dummyEst : Estimator := fun x y z =>
  { xr := x, yr := y, zr := z, dx := 1, dy := 1, angle := 0 }

/-- A concrete rotator used only to instantiate closed statements on the
non-estimating path, where the rotator is never consulted. -/
def dummyRot : Rotator := fun pts _ => pts

/-- A configured instance used in closed statements: `SetDeltas(2, 2, 2)` then
`SetEstimateGrid(False)` on a fresh instance. -/
def cfg2 : VoxelizePoints :=
  SetEstimateGrid (SetDeltas initVoxelizePoints 2 2 2) false

/-- The grid value the non-estimating path of `PointsToGrid` constructs,
written out: corner generation, tolerance `min(dx, dy)/2`, XY quantization,
unique-with-inverse, rescaling, and one voxel per point with id `j` taken at
inverse position `j * N + i`. -/
def coreGrid (x y z : List ℚ) (dx dy dz : ℚ) : Grid :=
  let tolerance := min dx dy / 2
  let uniq := npUniqueRows ((cornerNodes x y z dx dy dz).map (quantRow tolerance))
  { points := uniq.1.map (rescaleRow tolerance)
    cells := (List.range x.length).map (fun i =>
      (List.range 8).map (fun j => uniq.2.getD (j * x.length + i) 0))
    fieldAngle := none
    fieldCellSizes := none }

/-- The sign pattern of the eight corners in the fixed source order of
`c_n1 … c_n8`: bottom face `(−x−y, +x−y, −x+y, +x+y)`, then the top face in
the same XY pattern. -/
def specCornerSign : Fin 8 → R3
  | 0 => (-1, -1, -1)
  | 1 => (1, -1, -1)
  | 2 => (-1, 1, -1)
  | 3 => (1, 1, -1)
  | 4 => (-1, -1, 1)
  | 5 => (1, -1, 1)
  | 6 => (-1, 1, 1)
  | 7 => (1, 1, 1)

/-- Corner `j` of point `i`, as the spec words it: the `j`-th of the 8
combinations `(x_i ± dx/2, y_i ± dy/2, z_i ± dz/2)`. -/
def specCorner (x y z : List ℚ) (dx dy dz : ℚ) (j : Fin 8) (i : ℕ) : R3 :=
  (x.getD i 0 + (specCornerSign j).1 * (dx / 2),
   y.getD i 0 + (specCornerSign j).2.1 * (dy / 2),
   z.getD i 0 + (specCornerSign j).2.2 * (dz / 2))

/-- Follows the spec's words (§4.3 step 3): deduplicate the corner candidates
with tolerance `min(dx, dy)/2`, quantizing only X and Y (divide by the
tolerance, round to nearest), Z unquantized in the uniqueness key, and after
uniqueness rescale the quantized X/Y by multiplying by the tolerance. -/
def specNodePool (nodes : List R3) (dx dy : ℚ) : List R3 :=
  let tol := min dx dy / 2
  ((nodes.map (fun p =>
      ((around (p.1 / tol) : ℚ), (around (p.2.1 / tol) : ℚ), p.2.2))).dedup.insertionSort
    rowLe).map (fun p => (p.1 * tol, p.2.1 * tol, p.2.2))

/-- Follows the spec's words (§4.2): `dz` is the average of the gaps between
sorted distinct z values, falling back to the safe size when z has fewer than
2 distinct values. -/
def specDz (z : List ℚ) (safe : ℚ) : ℚ :=
  if z.toFinset.card < 2 then safe
  else npAverage (npDiff (npUnique1 z))

/-- The quantized keys of the `N` bottom-south-west corners (corner block 1),
used to state non-degeneracy. -/
def baseKeys (x y z : List ℚ) (dx dy dz : ℚ) : List R3 :=
  (stack3 (x.map (· - dx/2)) (y.map (· - dy/2)) (z.map (· - dz/2))).map
    (quantRow (min dx dy / 2))

/-- The precise reading of "non-degenerate input" used for the node-count
bound: the quantized bottom-south-west corner keys of the points are pairwise
distinct, and the vertical extent is positive. -/
def NonDegenerate (x y z : List ℚ) (dx dy dz : ℚ) : Prop :=
  (baseKeys x y z dx dy dz).Nodup ∧ 0 < dz

instance (x y z : List ℚ) (dx dy dz : ℚ) :
    Decidable (NonDegenerate x y z dx dy dz) := by
  unfold NonDegenerate; infer_instance

/-! ## Theorems -/

/-- On the non-estimating path (estimation disabled, all three deltas
configured, NumPy check passing, equal coordinate lengths), `PointsToGrid`
returns `coreGrid` built from the instance deltas, with the state untouched —
for any spacing arguments `a b c`. -/
theorem pointsToGrid_false_eq (est : Estimator) (rot : Rotator)
    (s : VoxelizePoints) (x y z : List ℚ) (a b c dx dy dz : ℚ)
    (hflag : s.estimateGrid = false)
    (hdx : s.dx = some dx) (hdy : s.dy = some dy) (hdz : s.dz = some dz)
    (hlen : x.length = y.length ∧ y.length = z.length) :
    PointsToGrid est rot true s x y z a b c = .ok (coreGrid x y z dx dy dz, s) := by
  unfold PointsToGrid coreGrid
  simp [hflag, hdx, hdy, hdz, hlen]

/-- C10: `SetDeltaZ(dz)` sets both the delta-z field and the safe-size field
to `dz`, whereas `SetDeltaX` and `SetDeltaY` change only their own delta
field and leave safe-size and every other configuration field unchanged. -/
theorem C10_setter_coupling (s : VoxelizePoints) (v : ℚ) :
    SetDeltaZ s v = { s with dz := some v, safe := v } ∧
    SetDeltaX s v = { s with dx := some v } ∧
    SetDeltaY s v = { s with dy := some v } := by
  refine ⟨?_, rfl, rfl⟩
  unfold SetDeltaZ SetSafeSize
  by_cases h : s.safe = v
  · simp [h]
  · simp [h]

/-- C7: when the numeric runtime check fails, `PointsToGrid` fails with the
unsupported-environment error as its first action, for every input and every
instance state; no grid and no updated state are produced. -/
theorem C7_numpy_check_first (est : Estimator) (rot : Rotator)
    (s : VoxelizePoints) (x y z : List ℚ) (a b c : ℚ) :
    PointsToGrid est rot false s x y z a b c =
      .error .unsupportedEnvironment := rfl

/-- C3 (code bug): with estimation enabled and a single input point, the
`num == 1` branch of `EstimateUniformSpacing` returns a 7-tuple which the
3-name unpack at the `PointsToGrid` call site cannot receive, so the call
fails instead of producing the safe-size cube the spec describes. -/
theorem C3_single_point_estimate_fails (est : Estimator) (rot : Rotator)
    (s : VoxelizePoints) (x y z : List ℚ) (a b c : ℚ)
    (hflag : s.estimateGrid = true)
    (hx : x.length = 1) (hy : y.length = 1) (hz : z.length = 1) :
    PointsToGrid est rot true s x y z a b c = .error .unpackError := by
  unfold PointsToGrid EstimateUniformSpacing
  simp [hflag, hx, hy, hz]

/-- C3 witness: the failure at the concrete failing input
`x = [0], y = [0], z = [0]` with a fresh (estimating) instance. -/
theorem C3_single_point_estimate_fails_witness :
    PointsToGrid dummyEst dummyRot true initVoxelizePoints [0] [0] [0] 5 5 5 =
      .error .unpackError :=
  C3_single_point_estimate_fails dummyEst dummyRot initVoxelizePoints
    [0] [0] [0] 5 5 5 rfl rfl rfl rfl

/-- C6 counterexample: with estimation disabled, mismatched coordinate
lengths fail with the array library's shape error, not with the
invalid-input (length-assertion) error — refuting the claim that the
invalid-input failure happens regardless of the estimate flag. -/
theorem C6_counterexample :
    PointsToGrid dummyEst dummyRot true cfg2 [0] [0, 0] [0] 1 1 1 =
      .error .shapeError ∧
    VoxError.shapeError ≠ VoxError.invalidInput := by
  constructor
  · rfl
  · decide

/-- C6 (amended): mismatched `x, y, z` lengths always abort `PointsToGrid`
with no mesh, but only the estimating path fails through the length
assertion (invalid input); with estimation disabled no length validation
runs and the failure is the array library's shape error. -/
theorem C6_mismatched_lengths (est : Estimator) (rot : Rotator)
    (s : VoxelizePoints) (x y z : List ℚ) (a b c : ℚ)
    (hlen : ¬(x.length = y.length ∧ y.length = z.length)) :
    (s.estimateGrid = true →
      PointsToGrid est rot true s x y z a b c = .error .invalidInput) ∧
    (s.estimateGrid = false →
      ∀ dx dy dz, s.dx = some dx → s.dy = some dy → s.dz = some dz →
        PointsToGrid est rot true s x y z a b c = .error .shapeError) := by
  constructor
  · intro hflag
    unfold PointsToGrid EstimateUniformSpacing
    simp [hflag, hlen]
  · intro hflag dx dy dz hdx hdy hdz
    unfold PointsToGrid
    simp [hflag, hdx, hdy, hdz, hlen]

/-- C6 witness: both conjuncts at the concrete mismatched input
`x = [0], y = [0, 0], z = [0]` on the non-estimating configured instance. -/
theorem C6_mismatched_lengths_witness :
    (cfg2.estimateGrid = true →
      PointsToGrid dummyEst dummyRot true cfg2 [0] [0, 0] [0] 1 1 1 =
        .error .invalidInput) ∧
    (cfg2.estimateGrid = false →
      ∀ dx dy dz, cfg2.dx = some dx → cfg2.dy = some dy → cfg2.dz = some dz →
        PointsToGrid dummyEst dummyRot true cfg2 [0] [0, 0] [0] 1 1 1 =
          .error .shapeError) :=
  C6_mismatched_lengths dummyEst dummyRot cfg2 [0] [0, 0] [0] 1 1 1 (by decide)

/-- C4 counterexample: on an instance configured with deltas 2 and estimation
disabled, calling `PointsToGrid` with spacing arguments 100 produces the node
pool of extent-2 corners — the same output as passing 2 — and that pool
differs from the one the extent-100 corners would give, refuting the claim
that the `dx, dy, dz` arguments determine the corner offsets. -/
theorem C4_counterexample :
    PointsToGrid dummyEst dummyRot true cfg2 [0] [0] [0] 100 100 100 =
      PointsToGrid dummyEst dummyRot true cfg2 [0] [0] [0] 2 2 2 ∧
    PointsToGrid dummyEst dummyRot true cfg2 [0] [0] [0] 100 100 100 =
      .ok ({ points := (npUniqueRows ((cornerNodes [0] [0] [0] 2 2 2).map
               (quantRow (min 2 2 / 2)))).1.map (rescaleRow (min 2 2 / 2)),
             cells := [[0, 4, 2, 6, 1, 5, 3, 7]],
             fieldAngle := none, fieldCellSizes := none }, cfg2) ∧
    (npUniqueRows ((cornerNodes [0] [0] [0] 2 2 2).map
        (quantRow (min 2 2 / 2)))).1.map (rescaleRow (min 2 2 / 2)) ≠
      (npUniqueRows ((cornerNodes [0] [0] [0] 100 100 100).map
        (quantRow (min 100 100 / 2)))).1.map (rescaleRow (min 100 100 / 2)) := by
  refine ⟨rfl, ?_, ?_⟩
  · with_unfolding_all rfl
  · with_unfolding_all decide

/-- C4 (amended): with estimation disabled, the instance-configured delta
fields are used as the cell extents with no rotation correction, and the
`dx, dy, dz` arguments of `PointsToGrid` are ignored — line 100 overwrites
them with the instance fields before corner generation. -/
theorem C4_deltas_from_instance (est : Estimator) (rot : Rotator)
    (numpyOK : Bool) (s : VoxelizePoints) (x y z : List ℚ)
    (a b c a' b' c' dx dy dz : ℚ)
    (hflag : s.estimateGrid = false)
    (hdx : s.dx = some dx) (hdy : s.dy = some dy) (hdz : s.dz = some dz)
    (hlen : x.length = y.length ∧ y.length = z.length) :
    PointsToGrid est rot numpyOK s x y z a b c =
      PointsToGrid est rot numpyOK s x y z a' b' c' ∧
    ∃ g, PointsToGrid est rot true s x y z a b c = .ok (g, s) ∧
      g.points = (npUniqueRows ((cornerNodes x y z dx dy dz).map
        (quantRow (min dx dy / 2)))).1.map (rescaleRow (min dx dy / 2)) ∧
      g.fieldAngle = none := by
  constructor
  · rfl
  · exact ⟨coreGrid x y z dx dy dz,
      pointsToGrid_false_eq est rot s x y z a b c dx dy dz hflag hdx hdy hdz hlen,
      rfl, rfl⟩

/-- `np.unique` of a 1-D array has one entry per distinct value. -/
theorem npUnique1_length (z : List ℚ) :
    (npUnique1 z).length = z.toFinset.card := by
  unfold npUnique1
  rw [(List.perm_insertionSort _ _).length_eq, List.card_toFinset]

/-- `np.diff` shortens a list by one. -/
theorem npDiff_length (l : List ℚ) :
    (npDiff l).length = l.length - 1 := by
  unfold npDiff
  rw [List.length_zipWith, List.length_tail]
  omega

/-- The unique rows are exactly the input rows, as a set. -/
theorem mem_npUniqueRows_fst {rows : List R3} {r : R3} :
    r ∈ (npUniqueRows rows).1 ↔ r ∈ rows := by
  unfold npUniqueRows
  rw [(List.perm_insertionSort rowLe _).mem_iff, List.mem_dedup]

/-- The unique rows contain no duplicates. -/
theorem npUniqueRows_nodup (rows : List R3) : (npUniqueRows rows).1.Nodup :=
  (List.perm_insertionSort rowLe _).nodup_iff.mpr (List.nodup_dedup rows)

/-- There are as many unique rows as distinct input rows. -/
theorem npUniqueRows_length (rows : List R3) :
    (npUniqueRows rows).1.length = rows.toFinset.card := by
  unfold npUniqueRows
  rw [(List.perm_insertionSort rowLe _).length_eq, List.card_toFinset]

/-- Entry `i` of a stacked `(N, 3)` array is the triple of entries `i`. -/
theorem stack3_getD (x y z : List ℚ) (i : ℕ) (d : R3)
    (hx : i < x.length) (hy : i < y.length) (hz : i < z.length) :
    (stack3 x y z).getD i d = (x.getD i 0, y.getD i 0, z.getD i 0) := by
  unfold stack3
  have hlen : i < (x.zip (y.zip z)).length := by
    rw [List.length_zip, List.length_zip]; omega
  rw [List.getD_eq_getElem _ _ hlen, List.getElem_zip, List.getElem_zip,
      List.getD_eq_getElem _ _ hx, List.getD_eq_getElem _ _ hy,
      List.getD_eq_getElem _ _ hz]

/-- A stacked block of three equal-length mapped arrays keeps their length. -/
theorem stack3_map_length (fx fy fz : ℚ → ℚ) (x y z : List ℚ)
    (hxy : x.length = y.length) (hyz : y.length = z.length) :
    (stack3 (x.map fx) (y.map fy) (z.map fz)).length = x.length := by
  unfold stack3
  simp only [List.length_zip, List.length_map]
  omega

/-- Entry `i` of a corner block applies the three offset maps to point `i`. -/
theorem block_getD (fx fy fz : ℚ → ℚ) (x y z : List ℚ) (i : ℕ) (d : R3)
    (hxy : x.length = y.length) (hyz : y.length = z.length) (hi : i < x.length) :
    (stack3 (x.map fx) (y.map fy) (z.map fz)).getD i d =
      (fx (x.getD i 0), fy (y.getD i 0), fz (z.getD i 0)) := by
  have hx' : i < (x.map fx).length := by simp only [List.length_map]; omega
  have hy' : i < (y.map fy).length := by simp only [List.length_map]; omega
  have hz' : i < (z.map fz).length := by simp only [List.length_map]; omega
  rw [stack3_getD _ _ _ i d hx' hy' hz']
  rw [List.getD_eq_getElem _ _ hx', List.getElem_map,
      List.getD_eq_getElem _ _ hy', List.getElem_map,
      List.getD_eq_getElem _ _ hz', List.getElem_map]
  rw [List.getD_eq_getElem _ _ hi, List.getD_eq_getElem _ _ (by omega : i < y.length),
      List.getD_eq_getElem _ _ (by omega : i < z.length)]

/-- Skipping one length-`n` block of a concatenation. -/
theorem append_block_getD {l1 l2 : List R3} {n i : ℕ} (d : R3) (h : l1.length = n) :
    (l1 ++ l2).getD (n + i) d = l2.getD i d := by
  rw [List.getD_append_right _ _ _ _ (by omega)]
  congr 1
  omega

/-- The corner array is corner-major/point-minor: its entry at `j·N + i` is
corner `j` of point `i`, in the fixed source corner order. -/
theorem cornerNodes_getD (x y z : List ℚ) (dx dy dz : ℚ) (i : ℕ) (j : Fin 8)
    (hxy : x.length = y.length) (hyz : y.length = z.length) (hi : i < x.length) :
    (cornerNodes x y z dx dy dz).getD (j.val * x.length + i) (0, 0, 0) =
      specCorner x y z dx dy dz j i := by
  have L : ∀ fx fy fz : ℚ → ℚ,
      (stack3 (x.map fx) (y.map fy) (z.map fz)).length = x.length :=
    fun fx fy fz => stack3_map_length fx fy fz x y z hxy hyz
  unfold cornerNodes
  simp only [List.append_assoc]
  fin_cases j <;>
    simp only [Fin.val_mk, specCorner, specCornerSign, Fin.isValue]
  · rw [show 0 * x.length + i = i by ring]
    rw [List.getD_append _ _ _ _ (by rw [L]; omega)]
    rw [block_getD _ _ _ x y z i _ hxy hyz hi]
    simp only [Prod.mk.injEq]
    refine ⟨by ring, by ring, by ring⟩
  · rw [show 1 * x.length + i = x.length + (i) by ring]
    rw [append_block_getD _ (L _ _ _)]
    rw [List.getD_append _ _ _ _ (by rw [L]; omega)]
    rw [block_getD _ _ _ x y z i _ hxy hyz hi]
    simp only [Prod.mk.injEq]
    refine ⟨by ring, by ring, by ring⟩
  · rw [show 2 * x.length + i = x.length + (x.length + (i)) by ring]
    rw [append_block_getD _ (L _ _ _),
      append_block_getD _ (L _ _ _)]
    rw [List.getD_append _ _ _ _ (by rw [L]; omega)]
    rw [block_getD _ _ _ x y z i _ hxy hyz hi]
    simp only [Prod.mk.injEq]
    refine ⟨by ring, by ring, by ring⟩
  · rw [show 3 * x.length + i = x.length + (x.length + (x.length + (i))) by ring]
    rw [append_block_getD _ (L _ _ _),
      append_block_getD _ (L _ _ _),
      append_block_getD _ (L _ _ _)]
    rw [List.getD_append _ _ _ _ (by rw [L]; omega)]
    rw [block_getD _ _ _ x y z i _ hxy hyz hi]
    simp only [Prod.mk.injEq]
    refine ⟨by ring, by ring, by ring⟩
  · rw [show 4 * x.length + i = x.length + (x.length + (x.length + (x.length + (i)))) by ring]
    rw [append_block_getD _ (L _ _ _),
      append_block_getD _ (L _ _ _),
      append_block_getD _ (L _ _ _),
      append_block_getD _ (L _ _ _)]
    rw [List.getD_append _ _ _ _ (by rw [L]; omega)]
    rw [block_getD _ _ _ x y z i _ hxy hyz hi]
    simp only [Prod.mk.injEq]
    refine ⟨by ring, by ring, by ring⟩
  · rw [show 5 * x.length + i = x.length + (x.length + (x.length + (x.length + (x.length + (i))))) by ring]
    rw [append_block_getD _ (L _ _ _),
      append_block_getD _ (L _ _ _),
      append_block_getD _ (L _ _ _),
      append_block_getD _ (L _ _ _),
      append_block_getD _ (L _ _ _)]
    rw [List.getD_append _ _ _ _ (by rw [L]; omega)]
    rw [block_getD _ _ _ x y z i _ hxy hyz hi]
    simp only [Prod.mk.injEq]
    refine ⟨by ring, by ring, by ring⟩
  · rw [show 6 * x.length + i = x.length + (x.length + (x.length + (x.length + (x.length + (x.length + (i)))))) by ring]
    rw [append_block_getD _ (L _ _ _),
      append_block_getD _ (L _ _ _),
      append_block_getD _ (L _ _ _),
      append_block_getD _ (L _ _ _),
      append_block_getD _ (L _ _ _),
      append_block_getD _ (L _ _ _)]
    rw [List.getD_append _ _ _ _ (by rw [L]; omega)]
    rw [block_getD _ _ _ x y z i _ hxy hyz hi]
    simp only [Prod.mk.injEq]
    refine ⟨by ring, by ring, by ring⟩
  · rw [show 7 * x.length + i = x.length + (x.length + (x.length + (x.length + (x.length + (x.length + (x.length + (i))))))) by ring]
    rw [append_block_getD _ (L _ _ _),
      append_block_getD _ (L _ _ _),
      append_block_getD _ (L _ _ _),
      append_block_getD _ (L _ _ _),
      append_block_getD _ (L _ _ _),
      append_block_getD _ (L _ _ _),
      append_block_getD _ (L _ _ _)]
    rw [block_getD _ _ _ x y z i _ hxy hyz hi]
    simp only [Prod.mk.injEq]
    refine ⟨by ring, by ring, by ring⟩


/-- In a duplicate-free list, distinct members sit at distinct positions. -/
theorem idxOfRow_inj {l : List R3} {a b : R3} (hn : l.Nodup)
    (ha : a ∈ l) (hb : b ∈ l) (h : idxOfRow l a = idxOfRow l b) : a = b := by
  induction l with
  | nil => cases ha
  | cons r rs ih =>
    rw [List.nodup_cons] at hn
    unfold idxOfRow at h
    by_cases hae : a = r <;> by_cases hbe : b = r
    · rw [hae, hbe]
    · simp [hae, hbe] at h
    · simp [hae, hbe] at h
    · simp only [hae, hbe, if_false, Nat.add_right_cancel_iff] at h
      have ha' : a ∈ rs := by
        rcases List.mem_cons.mp ha with h1 | h1
        · exact absurd h1 hae
        · exact h1
      have hb' : b ∈ rs := by
        rcases List.mem_cons.mp hb with h1 | h1
        · exact absurd h1 hbe
        · exact h1
      exact ih hn.2 ha' hb' h

/-- `np.around` lands within a half of its argument. -/
theorem around_bounds (q : ℚ) :
    q - 1/2 ≤ (around q : ℚ) ∧ (around q : ℚ) ≤ q + 1/2 := by
  have h1 : (⌊q⌋ : ℚ) ≤ q := Int.floor_le q
  have h2 : q < ⌊q⌋ + 1 := Int.lt_floor_add_one q
  unfold around
  split_ifs with ha hb hc
  · constructor <;> [linarith; linarith]
  · push_cast
    constructor <;> [linarith; linarith]
  · constructor <;> [linarith; linarith]
  · push_cast
    have : q - ⌊q⌋ = 1/2 := by linarith
    constructor <;> linarith

/-- Values more than one apart round to different integers. -/
theorem around_ne_of_far {u v : ℚ} (h : 1 < |u - v|) :
    around u ≠ around v := by
  intro he
  have hu := around_bounds u
  have hv := around_bounds v
  rw [he] at hu
  have : |u - v| ≤ 1 := by
    rw [abs_le]
    constructor <;> linarith [hu.1, hu.2, hv.1, hv.2]
  linarith

/-- C5 (amended): for corner candidates resolved through the quantized
uniqueness keys, equal quantized rows always merge to the same node index;
and a planar coordinate differing by more than the tolerance forces distinct
node indices.  (Differing by less than the tolerance does not guarantee a
merge — see the counterexample.) -/
theorem C5_tolerance_boundary (nodes : List R3) (t : ℚ) (p q : R3)
    (hp : p ∈ nodes) (hq : q ∈ nodes) (ht : 0 < t) :
    (quantRow t p = quantRow t q →
      idxOfRow (npUniqueRows (nodes.map (quantRow t))).1 (quantRow t p) =
        idxOfRow (npUniqueRows (nodes.map (quantRow t))).1 (quantRow t q)) ∧
    ((t < |p.1 - q.1| ∨ t < |p.2.1 - q.2.1|) →
      idxOfRow (npUniqueRows (nodes.map (quantRow t))).1 (quantRow t p) ≠
        idxOfRow (npUniqueRows (nodes.map (quantRow t))).1 (quantRow t q)) := by
  constructor
  · intro h
    rw [h]
  · intro hfar heq
    have hpu : quantRow t p ∈ (npUniqueRows (nodes.map (quantRow t))).1 :=
      mem_npUniqueRows_fst.mpr (List.mem_map_of_mem _ hp)
    have hqu : quantRow t q ∈ (npUniqueRows (nodes.map (quantRow t))).1 :=
      mem_npUniqueRows_fst.mpr (List.mem_map_of_mem _ hq)
    have hrow := idxOfRow_inj (npUniqueRows_nodup _) hpu hqu heq
    unfold quantRow at hrow
    rw [Prod.mk.injEq, Prod.mk.injEq] at hrow
    rcases hfar with hx | hy
    · have : 1 < |p.1 / t - q.1 / t| := by
        rw [div_sub_div_same, abs_div, abs_of_pos ht]
        exact (one_lt_div ht).mpr hx
      exact around_ne_of_far this (by exact_mod_cast hrow.1)
    · have : 1 < |p.2.1 / t - q.2.1 / t| := by
        rw [div_sub_div_same, abs_div, abs_of_pos ht]
        exact (one_lt_div ht).mpr hy
      exact around_ne_of_far this (by exact_mod_cast hrow.2.1)

/-- C5 witness: two far-apart corner candidates of a concrete two-point
input resolve to distinct node indices. -/
theorem C5_tolerance_boundary_witness :
    ((quantRow 1 ((-1 : ℚ), (-1 : ℚ), (-1 : ℚ)) = quantRow 1 (9, -1, -1) →
      idxOfRow (npUniqueRows ((cornerNodes [0, 10] [0, 0] [0, 0] 2 2 2).map
          (quantRow 1))).1 (quantRow 1 (-1, -1, -1)) =
        idxOfRow (npUniqueRows ((cornerNodes [0, 10] [0, 0] [0, 0] 2 2 2).map
          (quantRow 1))).1 (quantRow 1 (9, -1, -1))) ∧
    ((1 < |(-1 : ℚ) - (9 : ℚ)| ∨ 1 < |(-1 : ℚ) - (-1 : ℚ)|) →
      idxOfRow (npUniqueRows ((cornerNodes [0, 10] [0, 0] [0, 0] 2 2 2).map
          (quantRow 1))).1 (quantRow 1 (-1, -1, -1)) ≠
        idxOfRow (npUniqueRows ((cornerNodes [0, 10] [0, 0] [0, 0] 2 2 2).map
          (quantRow 1))).1 (quantRow 1 (9, -1, -1)))) :=
  C5_tolerance_boundary (cornerNodes [0, 10] [0, 0] [0, 0] 2 2 2) 1
    (-1, -1, -1) (9, -1, -1)
    (by with_unfolding_all decide) (by with_unfolding_all decide) (by decide)

/-- C5 counterexample: two corner candidates of `x = [0, 3/5]` agree in Y and
Z and differ in X by `3/5`, less than the tolerance `min(dx, dy)/2 = 1`, yet
resolve to distinct node pool indices (their X quantizations `-1` and `-2/5`
round to `-1` and `0`), refuting the sub-tolerance merge guarantee. -/
theorem C5_counterexample :
    ((-1 : ℚ), (-1 : ℚ), (-1 : ℚ)) ∈ cornerNodes [0, 3/5] [0, 0] [0, 0] 2 2 2 ∧
    ((-2/5 : ℚ), (-1 : ℚ), (-1 : ℚ)) ∈ cornerNodes [0, 3/5] [0, 0] [0, 0] 2 2 2 ∧
    |(-1 : ℚ) - (-2/5 : ℚ)| < min 2 2 / 2 ∧
    idxOfRow (npUniqueRows ((cornerNodes [0, 3/5] [0, 0] [0, 0] 2 2 2).map
        (quantRow (min 2 2 / 2)))).1
          (quantRow (min 2 2 / 2) (-1, -1, -1)) ≠
      idxOfRow (npUniqueRows ((cornerNodes [0, 3/5] [0, 0] [0, 0] 2 2 2).map
        (quantRow (min 2 2 / 2)))).1
          (quantRow (min 2 2 / 2) (-2/5, -1, -1)) := by
  with_unfolding_all decide

/-- C8: for more than one point, the estimation phase succeeds, stores the
estimator's `dx`, `dy` and angle, and stores `dz` as the average of the gaps
between sorted distinct z values, falling back to the configured safe size
when z has fewer than 2 distinct values (`specDz`); all four are retrievable
from the returned state for metadata emission. -/
theorem C8_dz_estimation (est : Estimator) (s : VoxelizePoints) (x y z : List ℚ)
    (hxy : x.length = y.length) (hyz : y.length = z.length)
    (hN : 1 < x.length) :
    EstimateUniformSpacing est s x y z =
      .ok (.tuple3 (est x y z).xr (est x y z).yr (est x y z).zr,
        { s with angle := (est x y z).angle,
                 dx := some (est x y z).dx,
                 dy := some (est x y z).dy,
                 dz := some (specDz z s.safe) }) := by
  have hnez : ¬ z.length = 1 := by omega
  have key : (npDiff (npUnique1 z)).length = z.toFinset.card - 1 := by
    rw [npDiff_length, npUnique1_length]
  unfold EstimateUniformSpacing
  simp only [hxy, hyz, and_self, if_true, hnez, if_false]
  have : (if 0 < (npDiff (npUnique1 z)).length
      then npAverage (npDiff (npUnique1 z)) else s.safe) = specDz z s.safe := by
    unfold specDz
    rcases Nat.lt_or_ge z.toFinset.card 2 with h2 | h2
    · have : ¬ 0 < (npDiff (npUnique1 z)).length := by omega
      simp [this, h2]
    · have : 0 < (npDiff (npUnique1 z)).length := by omega
      have h2' : ¬ z.toFinset.card < 2 := by omega
      simp [this, h2']
  rw [this]

/-- C8 witness: the estimation phase at `x = y = z = [0, 1]` on a fresh
instance, with a concrete estimator. -/
theorem C8_dz_estimation_witness :
    EstimateUniformSpacing dummyEst initVoxelizePoints [0, 1] [0, 1] [0, 1] =
      .ok (.tuple3 (dummyEst [0, 1] [0, 1] [0, 1]).xr
          (dummyEst [0, 1] [0, 1] [0, 1]).yr (dummyEst [0, 1] [0, 1] [0, 1]).zr,
        { initVoxelizePoints with
            angle := (dummyEst [0, 1] [0, 1] [0, 1]).angle,
            dx := some (dummyEst [0, 1] [0, 1] [0, 1]).dx,
            dy := some (dummyEst [0, 1] [0, 1] [0, 1]).dy,
            dz := some (specDz [0, 1] initVoxelizePoints.safe) }) :=
  C8_dz_estimation dummyEst initVoxelizePoints [0, 1] [0, 1] [0, 1]
    rfl rfl (by decide)

/-- C4 witness: the amended statement at the configured instance (deltas 2,
estimation disabled) and one input point, with spacing arguments 100 resp.
7, 8, 9. -/
theorem C4_deltas_from_instance_witness :
    PointsToGrid dummyEst dummyRot true cfg2 [0] [0] [0] 100 100 100 =
      PointsToGrid dummyEst dummyRot true cfg2 [0] [0] [0] 7 8 9 ∧
    ∃ g, PointsToGrid dummyEst dummyRot true cfg2 [0] [0] [0] 100 100 100 =
        .ok (g, cfg2) ∧
      g.points = (npUniqueRows ((cornerNodes [0] [0] [0] 2 2 2).map
        (quantRow (min 2 2 / 2)))).1.map (rescaleRow (min 2 2 / 2)) ∧
      g.fieldAngle = none :=
  C4_deltas_from_instance dummyEst dummyRot true cfg2 [0] [0] [0]
    100 100 100 7 8 9 2 2 2 (by decide) (by decide) (by decide) (by decide)
    (by decide)

/-- With equal coordinate lengths the corner array has `8N` entries. -/
theorem cornerNodes_length (x y z : List ℚ) (dx dy dz : ℚ)
    (hxy : x.length = y.length) (hyz : y.length = z.length) :
    (cornerNodes x y z dx dy dz).length = 8 * x.length := by
  have L : ∀ fx fy fz : ℚ → ℚ,
      (stack3 (x.map fx) (y.map fy) (z.map fz)).length = x.length :=
    fun fx fy fz => stack3_map_length fx fy fz x y z hxy hyz
  unfold cornerNodes
  simp only [List.length_append, L]
  ring

/-- One cell per input point. -/
theorem coreGrid_cells_length (x y z : List ℚ) (dx dy dz : ℚ) :
    (coreGrid x y z dx dy dz).cells.length = x.length := by
  simp [coreGrid]

/-- Cell `i` of the built grid has 8 ids, id `j` being the inverse index
at position `j·N + i`. -/
theorem coreGrid_cells_getD (x y z : List ℚ) (dx dy dz : ℚ) (i : ℕ) (j : Fin 8)
    (hi : i < x.length) :
    (((coreGrid x y z dx dy dz).cells.getD i []).getD j.val 0 =
      (npUniqueRows ((cornerNodes x y z dx dy dz).map
        (quantRow (min dx dy / 2)))).2.getD (j.val * x.length + i) 0) ∧
    ((coreGrid x y z dx dy dz).cells.getD i []).length = 8 := by
  have hcell : (coreGrid x y z dx dy dz).cells.getD i [] =
      (List.range 8).map (fun jj =>
        (npUniqueRows ((cornerNodes x y z dx dy dz).map
          (quantRow (min dx dy / 2)))).2.getD (jj * x.length + i) 0) := by
    show ((List.range x.length).map _).getD i [] = _
    rw [List.getD_eq_getElem _ _ (by simp [hi])]
    rw [List.getElem_map, List.getElem_range]
  rw [hcell]
  constructor
  · rw [List.getD_eq_getElem _ _ (by simp [j.isLt])]
    rw [List.getElem_map, List.getElem_range]
  · simp

/-- C1: on the non-estimating path with configured deltas, `PointsToGrid`
emits exactly one voxel cell per input point (8 ids each); the corner array
has length `8N`, is corner-major/point-minor with entry `j·N + i` equal to
the `j`-th combination `(x_i ± dx/2, y_i ± dy/2, z_i ± dz/2)`; and cell `i`'s
eight node ids are the deduplication inverse indices at positions `j·N + i`. -/
theorem C1_cells_structure (est : Estimator) (rot : Rotator)
    (s : VoxelizePoints) (x y z : List ℚ) (a b c dx dy dz : ℚ)
    (hxy : x.length = y.length) (hyz : y.length = z.length)
    (hflag : s.estimateGrid = false)
    (hdx : s.dx = some dx) (hdy : s.dy = some dy) (hdz : s.dz = some dz) :
    ∃ g, PointsToGrid est rot true s x y z a b c = .ok (g, s) ∧
      g.cells.length = x.length ∧
      (cornerNodes x y z dx dy dz).length = 8 * x.length ∧
      ∀ i, i < x.length → ∀ j : Fin 8,
        (g.cells.getD i []).length = 8 ∧
        (cornerNodes x y z dx dy dz).getD (j.val * x.length + i) (0, 0, 0) =
          specCorner x y z dx dy dz j i ∧
        (g.cells.getD i []).getD j.val 0 =
          (npUniqueRows ((cornerNodes x y z dx dy dz).map
            (quantRow (min dx dy / 2)))).2.getD (j.val * x.length + i) 0 := by
  refine ⟨coreGrid x y z dx dy dz,
    pointsToGrid_false_eq est rot s x y z a b c dx dy dz hflag hdx hdy hdz
      ⟨hxy, hyz⟩,
    coreGrid_cells_length x y z dx dy dz,
    cornerNodes_length x y z dx dy dz hxy hyz, ?_⟩
  intro i hi j
  exact ⟨(coreGrid_cells_getD x y z dx dy dz i j hi).2,
    cornerNodes_getD x y z dx dy dz i j hxy hyz hi,
    (coreGrid_cells_getD x y z dx dy dz i j hi).1⟩

/-- C1 witness: the cell/corner structure at the concrete two-point input
`x = [0, 10]` on the configured instance. -/
theorem C1_cells_structure_witness :
    ∃ g, PointsToGrid dummyEst dummyRot true cfg2 [0, 10] [0, 0] [0, 0] 1 1 1 =
        .ok (g, cfg2) ∧
      g.cells.length = (2 : ℕ) ∧
      (cornerNodes [0, 10] [0, 0] [0, 0] 2 2 2).length = 8 * 2 ∧
      ∀ i, i < ([(0 : ℚ), 10] : List ℚ).length → ∀ j : Fin 8,
        (g.cells.getD i []).length = 8 ∧
        (cornerNodes [0, 10] [0, 0] [0, 0] 2 2 2).getD
            (j.val * ([(0 : ℚ), 10] : List ℚ).length + i) (0, 0, 0) =
          specCorner [0, 10] [0, 0] [0, 0] 2 2 2 j i ∧
        (g.cells.getD i []).getD j.val 0 =
          (npUniqueRows ((cornerNodes [0, 10] [0, 0] [0, 0] 2 2 2).map
            (quantRow (min 2 2 / 2)))).2.getD
              (j.val * ([(0 : ℚ), 10] : List ℚ).length + i) 0 :=
  C1_cells_structure dummyEst dummyRot cfg2 [0, 10] [0, 0] [0, 0] 1 1 1 2 2 2
    rfl rfl (by decide) (by decide) (by decide) (by decide)

/-- C2: the node pool `PointsToGrid` emits is the spec-worded deduplication
(`specNodePool`): tolerance `min(dx, dy)/2`, only X and Y quantized
(divide by the tolerance, round to nearest), Z unquantized in the key, and
quantized X/Y rescaled by the tolerance after uniqueness; equivalently, its
members are exactly the quantize-then-rescale images of the 8N corner
candidates. -/
theorem C2_dedup_policy (est : Estimator) (rot : Rotator)
    (s : VoxelizePoints) (x y z : List ℚ) (a b c dx dy dz : ℚ)
    (hflag : s.estimateGrid = false)
    (hdx : s.dx = some dx) (hdy : s.dy = some dy) (hdz : s.dz = some dz)
    (hlen : x.length = y.length ∧ y.length = z.length) :
    ∃ g, PointsToGrid est rot true s x y z a b c = .ok (g, s) ∧
      g.points = specNodePool (cornerNodes x y z dx dy dz) dx dy ∧
      ∀ p, p ∈ g.points ↔ ∃ q ∈ cornerNodes x y z dx dy dz,
        p = rescaleRow (min dx dy / 2) (quantRow (min dx dy / 2) q) := by
  refine ⟨coreGrid x y z dx dy dz,
    pointsToGrid_false_eq est rot s x y z a b c dx dy dz hflag hdx hdy hdz hlen,
    rfl, ?_⟩
  intro p
  show p ∈ (npUniqueRows ((cornerNodes x y z dx dy dz).map
      (quantRow (min dx dy / 2)))).1.map (rescaleRow (min dx dy / 2)) ↔ _
  rw [List.mem_map]
  constructor
  · rintro ⟨q, hq, rfl⟩
    obtain ⟨cnd, hc, rfl⟩ := List.mem_map.mp (mem_npUniqueRows_fst.mp hq)
    exact ⟨cnd, hc, rfl⟩
  · rintro ⟨cnd, hc, rfl⟩
    exact ⟨quantRow (min dx dy / 2) cnd,
      mem_npUniqueRows_fst.mpr (List.mem_map_of_mem _ hc), rfl⟩

/-- C2 witness: the dedup policy at a concrete two-point input on the
configured instance. -/
theorem C2_dedup_policy_witness :
    ∃ g, PointsToGrid dummyEst dummyRot true cfg2 [0, 10] [0, 0] [0, 0] 1 1 1 =
        .ok (g, cfg2) ∧
      g.points = specNodePool (cornerNodes [0, 10] [0, 0] [0, 0] 2 2 2) 2 2 ∧
      ∀ p, p ∈ g.points ↔ ∃ q ∈ cornerNodes [0, 10] [0, 0] [0, 0] 2 2 2,
        p = rescaleRow (min 2 2 / 2) (quantRow (min 2 2 / 2) q) :=
  C2_dedup_policy dummyEst dummyRot cfg2 [0, 10] [0, 0] [0, 0] 1 1 1 2 2 2
    (by decide) (by decide) (by decide) (by decide) (by decide)

/-- Every nonempty list of rationals has a maximal member. -/
theorem exists_max_mem (l : List ℚ) (h : l ≠ []) :
    ∃ m ∈ l, ∀ w ∈ l, w ≤ m := by
  induction l with
  | nil => exact absurd rfl h
  | cons a t ih =>
    cases t with
    | nil =>
      refine ⟨a, List.mem_cons_self a [], ?_⟩
      intro w hw
      rcases List.mem_cons.mp hw with rfl | hw'
      · exact le_refl w
      · cases hw'
    | cons b t' =>
      obtain ⟨m, hm, hmax⟩ := ih (by simp)
      by_cases hc : a ≤ m
      · refine ⟨m, List.mem_cons_of_mem _ hm, ?_⟩
        intro w hw
        rcases List.mem_cons.mp hw with rfl | hw'
        · exact hc
        · exact hmax w hw'
      · refine ⟨a, List.mem_cons_self _ _, ?_⟩
        intro w hw
        rcases List.mem_cons.mp hw with rfl | hw'
        · exact le_refl w
        · exact le_trans (hmax w hw') (le_of_not_le hc)

/-- One bottom-south-west corner key per point. -/
theorem baseKeys_length (x y z : List ℚ) (dx dy dz : ℚ)
    (hxy : x.length = y.length) (hyz : y.length = z.length) :
    (baseKeys x y z dx dy dz).length = x.length := by
  unfold baseKeys
  rw [List.length_map, stack3_map_length _ _ _ x y z hxy hyz]

/-- The bottom-south-west corner keys are among the quantized candidates. -/
theorem baseKeys_subset (x y z : List ℚ) (dx dy dz : ℚ) :
    ∀ w ∈ baseKeys x y z dx dy dz,
      w ∈ (cornerNodes x y z dx dy dz).map (quantRow (min dx dy / 2)) := by
  intro w hw
  unfold baseKeys at hw
  unfold cornerNodes
  simp only [List.map_append, List.mem_append]
  tauto

/-- Every bottom-south-west corner key has Z of the form `z_l - dz/2`. -/
theorem baseKeys_third (x y z : List ℚ) (dx dy dz : ℚ)
    (hxy : x.length = y.length) (hyz : y.length = z.length) :
    ∀ w ∈ baseKeys x y z dx dy dz,
      ∃ l, l < x.length ∧ w.2.2 = z.getD l 0 - dz / 2 := by
  intro w hw
  unfold baseKeys at hw
  obtain ⟨v, hv, rfl⟩ := List.mem_map.mp hw
  obtain ⟨l, hl, hvl⟩ := List.mem_iff_getElem.mp hv
  have hl' : l < x.length := by
    have := stack3_map_length (· - dx/2) (· - dy/2) (· - dz/2) x y z hxy hyz
    omega
  refine ⟨l, hl', ?_⟩
  have hgd := block_getD (· - dx/2) (· - dy/2) (· - dz/2) x y z l (0, 0, 0) hxy hyz hl'
  rw [List.getD_eq_getElem _ _ hl, hvl] at hgd
  rw [hgd]
  rfl

/-- The top-north-east corner of point `k` is among the corner candidates. -/
theorem top_corner_mem (x y z : List ℚ) (dx dy dz : ℚ) (k : ℕ)
    (hxy : x.length = y.length) (hyz : y.length = z.length) (hk : k < x.length) :
    (x.getD k 0 + dx/2, y.getD k 0 + dy/2, z.getD k 0 + dz/2) ∈
      cornerNodes x y z dx dy dz := by
  have hlen8 : k < (stack3 (x.map (· + dx/2)) (y.map (· + dy/2))
      (z.map (· + dz/2))).length := by
    rw [stack3_map_length _ _ _ x y z hxy hyz]
    omega
  have hmem : (x.getD k 0 + dx/2, y.getD k 0 + dy/2, z.getD k 0 + dz/2) ∈
      stack3 (x.map (· + dx/2)) (y.map (· + dy/2)) (z.map (· + dz/2)) := by
    have hgd := block_getD (· + dx/2) (· + dy/2) (· + dz/2) x y z k (0, 0, 0) hxy hyz hk
    rw [List.getD_eq_getElem _ _ hlen8] at hgd
    rw [← hgd]
    exact List.getElem_mem _
  unfold cornerNodes
  simp only [List.mem_append]
  tauto

/-- C9: for `N > 1` non-degenerate input (pairwise distinct quantized
bottom-south-west corner keys and positive `dz` — the formalized reading of
"non-degenerate"), the node pool of the produced grid satisfies
`N + 1 ≤ |NodePool| ≤ 8N`. -/
theorem C9_node_count (est : Estimator) (rot : Rotator)
    (s : VoxelizePoints) (x y z : List ℚ) (a b c dx dy dz : ℚ)
    (hxy : x.length = y.length) (hyz : y.length = z.length)
    (hN : 1 < x.length)
    (hflag : s.estimateGrid = false)
    (hdx : s.dx = some dx) (hdy : s.dy = some dy) (hdz : s.dz = some dz)
    (hnd : NonDegenerate x y z dx dy dz) :
    ∃ g, PointsToGrid est rot true s x y z a b c = .ok (g, s) ∧
      x.length + 1 ≤ g.points.length ∧ g.points.length ≤ 8 * x.length := by
  refine ⟨coreGrid x y z dx dy dz,
    pointsToGrid_false_eq est rot s x y z a b c dx dy dz hflag hdx hdy hdz
      ⟨hxy, hyz⟩, ?_, ?_⟩
  · -- lower bound
    have hpts : (coreGrid x y z dx dy dz).points.length =
        (npUniqueRows ((cornerNodes x y z dx dy dz).map
          (quantRow (min dx dy / 2)))).1.length := by
      simp [coreGrid]
    rw [hpts]
    -- the maximal z entry
    have hzlen : 0 < z.length := by omega
    have hzne : z ≠ [] := List.ne_nil_of_length_pos hzlen
    obtain ⟨m, hm, hmax⟩ := exists_max_mem z hzne
    obtain ⟨k, hkz, hzk⟩ := List.mem_iff_getElem.mp hm
    have hk : k < x.length := by omega
    -- the top corner of the maximal point
    set t := min dx dy / 2 with ht
    set qrows := (cornerNodes x y z dx dy dz).map (quantRow t) with hq
    have htopmem : quantRow t (x.getD k 0 + dx/2, y.getD k 0 + dy/2,
        z.getD k 0 + dz/2) ∈ qrows :=
      List.mem_map_of_mem _ (top_corner_mem x y z dx dy dz k hxy hyz hk)
    have htopnot : quantRow t (x.getD k 0 + dx/2, y.getD k 0 + dy/2,
        z.getD k 0 + dz/2) ∉ baseKeys x y z dx dy dz := by
      intro hcon
      obtain ⟨l, hl, hthird⟩ := baseKeys_third x y z dx dy dz hxy hyz _ hcon
      have h3 : (quantRow t (x.getD k 0 + dx/2, y.getD k 0 + dy/2,
          z.getD k 0 + dz/2)).2.2 = z.getD k 0 + dz/2 := rfl
      rw [h3] at hthird
      have hle : z.getD l 0 ≤ z.getD k 0 := by
        rw [List.getD_eq_getElem _ _ (by omega : l < z.length),
            List.getD_eq_getElem _ _ hkz, hzk]
        exact hmax _ (List.getElem_mem _)
      have := hnd.2
      linarith
    -- the finset of witnesses
    have hbsub : ∀ w ∈ baseKeys x y z dx dy dz, w ∈ qrows :=
      baseKeys_subset x y z dx dy dz
    have hcard : ((baseKeys x y z dx dy dz).toFinset).card = x.length := by
      rw [List.toFinset_card_of_nodup hnd.1, baseKeys_length x y z dx dy dz hxy hyz]
    have hsub : insert (quantRow t (x.getD k 0 + dx/2, y.getD k 0 + dy/2,
        z.getD k 0 + dz/2)) (baseKeys x y z dx dy dz).toFinset ⊆
        (npUniqueRows qrows).1.toFinset := by
      intro w hw
      rcases Finset.mem_insert.mp hw with rfl | hw'
      · exact List.mem_toFinset.mpr (mem_npUniqueRows_fst.mpr htopmem)
      · exact List.mem_toFinset.mpr
          (mem_npUniqueRows_fst.mpr (hbsub w (List.mem_toFinset.mp hw')))
    have hinscard : (insert (quantRow t (x.getD k 0 + dx/2, y.getD k 0 + dy/2,
        z.getD k 0 + dz/2)) (baseKeys x y z dx dy dz).toFinset).card =
        x.length + 1 := by
      rw [Finset.card_insert_of_not_mem (fun hcon =>
        htopnot (List.mem_toFinset.mp hcon)), hcard]
    calc x.length + 1
        = (insert (quantRow t (x.getD k 0 + dx/2, y.getD k 0 + dy/2,
            z.getD k 0 + dz/2)) (baseKeys x y z dx dy dz).toFinset).card :=
          hinscard.symm
      _ ≤ (npUniqueRows qrows).1.toFinset.card := Finset.card_le_card hsub
      _ = (npUniqueRows qrows).1.length :=
          List.toFinset_card_of_nodup (npUniqueRows_nodup qrows)
  · -- upper bound
    have hpts : (coreGrid x y z dx dy dz).points.length =
        (npUniqueRows ((cornerNodes x y z dx dy dz).map
          (quantRow (min dx dy / 2)))).1.length := by
      simp [coreGrid]
    rw [hpts, npUniqueRows_length]
    calc ((cornerNodes x y z dx dy dz).map
          (quantRow (min dx dy / 2))).toFinset.card
        ≤ ((cornerNodes x y z dx dy dz).map (quantRow (min dx dy / 2))).length :=
          List.toFinset_card_le _
      _ = 8 * x.length := by
          rw [List.length_map, cornerNodes_length x y z dx dy dz hxy hyz]

/-- C9 witness: the bound `N + 1 ≤ |NodePool| ≤ 8N` at the concrete
non-degenerate two-point input `x = [0, 10]`. -/
theorem C9_node_count_witness :
    ∃ g, PointsToGrid dummyEst dummyRot true cfg2 [0, 10] [0, 0] [0, 0] 1 1 1 =
        .ok (g, cfg2) ∧
      ([(0 : ℚ), 10] : List ℚ).length + 1 ≤ g.points.length ∧
      g.points.length ≤ 8 * ([(0 : ℚ), 10] : List ℚ).length :=
  C9_node_count dummyEst dummyRot cfg2 [0, 10] [0, 0] [0, 0] 1 1 1 2 2 2
    rfl rfl (by decide) (by decide) (by decide) (by decide) (by decide)
    (by with_unfolding_all decide)

end PVGeo
